import Mathlib

/-!
# Verification of the patronum verifying Ethereum RPC proxy

Shallow embedding of the core logic of the `VerifyingProvider` (src/unnamed/part_005),
the `RPC` retry client (src/unnamed/part_004) and the constants (src/src/constants.ts),
together with theorems settling the specification claims.

External library primitives (keccak hashing, Merkle-Patricia `trie.verifyProof`,
RLP account serialization, hex/byte conversions) are modelled as abstract oracle
functions passed as parameters: the repository code treats them as opaque library
calls with defined contracts, and every claim below is proved for all oracles
(or refuted at a concrete instantiation).
-/

namespace Patronum

/-- Byte arrays (`Uint8Array`) are modelled as lists of naturals. -/
abbrev Bytes := List Nat

/-- Constant `KECCAK256_NULL_S` from `@ethereumjs/util`: keccak of the empty byte string.
The same constant appears in src/src/constants.ts as `EMPTY_ACCOUNT_EXTCODEHASH`. -/
def KECCAK256_NULL_S : String :=
  "0xc5d2460186f7233c927e7db2dcc703c0e500b653ca82273b7bfad8045d85a470"

/-- Constant `KECCAK256_RLP_S` from `@ethereumjs/util`: keccak of the RLP of the empty string,
the root of the empty trie. -/
def KECCAK256_RLP_S : String :=
  "0x56e81f171bcc55a6ff8345e692c0f86e5b48e01b996cadc001622fb5e363b421"

/-- Modelled from the spec: the `ZERO_HASH` constant imported by the provider from
`./constants` (the current constants module is only partially under src/; src/src/constants.ts
lacks this name). Per the spec it is "the zero hash sentinel `0x0…0`": 32 zero bytes in hex. -/
def ZERO_HASH : String :=
  "0x0000000000000000000000000000000000000000000000000000000000000000"

/-- Constant `ZERO_ADDR` from src/src/constants.ts. -/
def ZERO_ADDR : String := "0x0000000000000000000000000000000000000000"

/-- Constant `MAX_BLOCK_HISTORY` from src/src/constants.ts (line 8). -/
def MAX_BLOCK_HISTORY : Nat := 256

/-- Constant `MAX_BLOCK_FUTURE` from src/src/constants.ts (line 9). -/
def MAX_BLOCK_FUTURE : Nat := 3

/-- Constant `REQUEST_BATCH_SIZE` from src/src/constants.ts. -/
def REQUEST_BATCH_SIZE : Nat := 10

/-- Rendering `'0x' + BigInt(n).toString(16)` (provider.ts `bigIntToHex`): lowercase hex, no padding. -/
def bigIntToHex (n : Nat) : String :=
  "0x" ++ (Nat.toDigits 16 n).asString

/-! ## RPC client (src/unnamed/part_004, `RPC` class) -/

/-- A raw JSON-RPC sub-request: the method together with the freshly generated id
(`generateId()`); params are irrelevant to the retry logic and are carried opaquely. -/
structure RPCRequestRaw where
  method : String
  params : String
  id : Nat
deriving DecidableEq, Repr

/-- Type `RPCResponse` from rpc.ts: `{ success: boolean, result: any }`. The payload is opaque. -/
structure RPCResponse where
  success : Bool
  result : String
deriving DecidableEq, Repr

instance : Inhabited RPCResponse := ⟨⟨false, ""⟩⟩

/-- Errors thrown by the RPC client: the unsupported-method synchronous throw and the
`'RPC request failed'` throw after exhausted retries. -/
inductive RPCError where
  | methodNotSupported
  | requestFailed
deriving DecidableEq, Repr

/-- The network oracle standing for `RPC._request`: given the attempt index and the raw
requests sent on that attempt, it yields the corresponding responses (transport failures
already mapped to `success := false`, exactly as `_request`'s catch branch does). -/
abbrev AttemptOracle := Nat → List RPCRequestRaw → List RPCResponse

/-- Loop body of `RPC._retryRequest` (rpc.ts lines 172-184): up to `fuel` further attempts,
`t` is the index of the next attempt; returns the first successful response, or throws
after the attempts are exhausted. -/
def retryRequestGo (attempt : Nat → RPCResponse) (t : Nat) : Nat → Except RPCError RPCResponse
  | 0 => .error .requestFailed
  | fuel + 1 =>
    let r := attempt t
    if r.success then .ok r else retryRequestGo attempt (t + 1) fuel

/-- Method `RPC._retryRequest` (rpc.ts lines 163-186) with its default `retry = 5`.
The single wrapped request is fixed, so the oracle only depends on the attempt index. -/
def retryRequest (attempt : Nat → RPCResponse) (retry : Nat := 5) : Except RPCError RPCResponse :=
  retryRequestGo attempt 0 retry

/-- Method `RPC.request` (rpc.ts lines 133-138): synchronous unsupported-method check, then
`_retryRequest`. -/
def request (unsupportedMethods : Option (List String)) (attempt : Nat → RPCResponse)
    (method : String) : Except RPCError RPCResponse :=
  match unsupportedMethods with
  | some ms => if method ∈ ms then .error .methodNotSupported else retryRequest attempt
  | none => retryRequest attempt

/-- Loop of `RPC._retryBatch` (rpc.ts lines 201-213): `t` counts attempts already made,
`fuel` the attempts left, `requestsLeft` the sub-requests whose previous attempt failed,
`results` the accumulated id-indexed successful responses. -/
def retryBatchGo (attempt : AttemptOracle) (t : Nat) (requestsLeft : List RPCRequestRaw)
    (results : List (Nat × RPCResponse)) : Nat → List (Nat × RPCResponse)
  | 0 => results
  | fuel + 1 =>
    let res := attempt t requestsLeft
    let paired := res.zip requestsLeft
    let results' := results ++ paired.filterMap
      (fun p => if p.1.success then some (p.2.id, p.1) else none)
    let nextRequests := paired.filterMap
      (fun p => if p.1.success then none else some p.2)
    if nextRequests.isEmpty then results'
    else retryBatchGo attempt (t + 1) nextRequests results' fuel

/-- Method `RPC._retryBatch` (rpc.ts lines 192-222) with its default `retry = 5`: run the selective
retry loop, then build `failedRequests = requestsRaw.map(r => !(r.id in results))` and throw
when `failedRequests.length > 0`; otherwise return the responses in request order. -/
def retryBatch (attempt : AttemptOracle) (requestsRaw : List RPCRequestRaw)
    (retry : Nat := 5) : Except RPCError (List RPCResponse) :=
  let results := retryBatchGo attempt 0 requestsRaw [] retry
  let failedRequests := requestsRaw.map (fun r => !(results.any (fun p => p.1 == r.id)))
  if 0 < failedRequests.length then .error .requestFailed
  else .ok (requestsRaw.map (fun r => ((results.find? (fun p => p.1 == r.id)).getD (0, default)).2))

/-- Fuelled splitting loop for [[chunkList]]; `fuel ≥ l.length` suffices for `size ≥ 1`. -/
def chunkListGo (size : Nat) : Nat → List α → List (List α)
  | 0, _ => []
  | _, [] => []
  | fuel + 1, l => l.take size :: chunkListGo size fuel (l.drop size)

/-- Function `_.chunk` from lodash, as used by `RPC.requestBatch` (chunk sizes are positive there). -/
def chunkList (l : List α) (size : Nat) : List (List α) :=
  if size = 0 then [] else chunkListGo size l.length l

/-- Method `RPC.requestBatch` (rpc.ts lines 140-161): unsupported-method check over the members;
with `supportBatchRequests` the requests are chunked (`batchSize || REQUEST_BATCH_SIZE`)
and each chunk goes through `_retryBatch`; otherwise sequential `_retryRequest` calls.
The raw ids are part of the input here (in the source they are generated inside
`_retryBatch`); `singleAttempt` gives, per request index, the attempt oracle used by the
sequential path. -/
def requestBatch (unsupportedMethods : Option (List String)) (supportBatch : Bool)
    (batchSize : Option Nat) (attempt : AttemptOracle)
    (singleAttempt : Nat → Nat → RPCResponse)
    (requests : List RPCRequestRaw) : Except RPCError (List RPCResponse) :=
  if (match unsupportedMethods with
      | some ms => requests.any (fun r => r.method ∈ ms)
      | none => false) then
    .error .methodNotSupported
  else if supportBatch then
    let chunks := chunkList requests (batchSize.getD REQUEST_BATCH_SIZE)
    (chunks.mapM (fun chunk => retryBatch attempt chunk)).map List.flatten
  else
    (List.range requests.length).mapM (fun i => retryRequest (singleAttempt i))

/-! ## Verifying provider state (src/unnamed/part_005) -/

/-- The mutable state of `VerifyingProvider` relevant to `update`, `blockNumber`,
`waitForBlockNumber` and block-tag resolution. `blockHashes` is keyed by block number
(the source keys by `bigIntToHex(blockNumber)`, which is injective on numbers);
`blockPromises` holds the wait slots with their resolved flag (`resolve()` marks a
promise resolved but the entry is never deleted). -/
structure ProviderState where
  latestBlockNumber : Nat
  blockHashes : List (Nat × String)
  blockPromises : List (Nat × Bool)
deriving DecidableEq, Repr

/-- Update-or-insert into an association list (JS object property assignment). -/
def setAssoc (l : List (Nat × α)) (k : Nat) (v : α) : List (Nat × α) :=
  if l.any (fun p => p.1 == k) then
    l.map (fun p => if p.1 == k then (k, v) else p)
  else l ++ [(k, v)]

/-- Method `VerifyingProvider.update` (provider lines 113-134): record the hash, set
`latestBlockNumber := blockNumber` unconditionally, and when the number strictly
increased, resolve every pending promise for numbers in `(old latest, blockNumber]`.
The reorg warning is only a log and is not modelled. -/
def update (s : ProviderState) (blockHash : String) (blockNumber : Nat) : ProviderState :=
  let latestBlockNumber := s.latestBlockNumber
  { latestBlockNumber := blockNumber
    blockHashes := setAssoc s.blockHashes blockNumber blockHash
    blockPromises :=
      if latestBlockNumber < blockNumber then
        s.blockPromises.map (fun p =>
          if latestBlockNumber + 1 ≤ p.1 ∧ p.1 ≤ blockNumber then (p.1, true) else p)
      else s.blockPromises }

/-- Method `VerifyingProvider.blockNumber` (provider lines 162-164). -/
def blockNumber (s : ProviderState) : String :=
  bigIntToHex s.latestBlockNumber

/-- Block tags accepted by `getBlockNumberByBlockOpt`; hex-integer strings arrive
already parsed by `BigInt` as `num`. -/
inductive BlockOpt where
  | pending | earliest | finalized | safe | latest
  | num (n : Nat)
deriving DecidableEq, Repr

/-- The error surface of the provider. -/
inductive ProviderError where
  | invalidParams
  | internal
deriving DecidableEq, Repr

/-- Method `VerifyingProvider.getBlockNumberByBlockOpt` (provider lines 674-694). -/
def getBlockNumberByBlockOpt (s : ProviderState) : BlockOpt → Except ProviderError Nat
  | .pending | .earliest | .finalized | .safe => .error .invalidParams
  | .latest => .ok s.latestBlockNumber
  | .num blockNumber =>
    if s.latestBlockNumber + MAX_BLOCK_FUTURE < blockNumber then .error .invalidParams
    else if blockNumber + MAX_BLOCK_HISTORY < s.latestBlockNumber then .error .invalidParams
    else .ok blockNumber

/-- Whether `waitForBlockNumber` returns at once or suspends on a promise. -/
inductive WaitResult where
  | immediate
  | awaiting
deriving DecidableEq, Repr

/-- Method `VerifyingProvider.waitForBlockNumber` (provider lines 657-672): return immediately
when the number is not in the future; otherwise install a wait slot if none exists and
suspend on it. -/
def waitForBlockNumber (s : ProviderState) (n : Nat) : WaitResult × ProviderState :=
  if n ≤ s.latestBlockNumber then (.immediate, s)
  else if s.blockPromises.any (fun p => p.1 == n) then (.awaiting, s)
  else (.awaiting, { s with blockPromises := s.blockPromises ++ [(n, false)] })

/-! ## Access-list augmentation in `getVM` (provider lines 711-733) -/

/-- One entry of the EIP-2930 access list. -/
structure AccessListEntry where
  address : String
  storageKeys : List String
deriving DecidableEq, Repr

/-- The augmentation of the upstream access list in `VerifyingProvider.getVM`
(provider lines 729-733): `{address: _tx.from, storageKeys: []}` is pushed
unconditionally; `{address: _tx.to, storageKeys: []}` is pushed only when `_tx.to`
is set and no entry of the (already extended) list has `address.toLowerCase() === _tx.to`.
`fromAddr` is `_tx.from = tx.from ? tx.from : ZERO_ADDR`; `toAddr` is `tx.to`
(`none` for undefined or the falsy empty string). -/
def augmentAccessList (accessList : List AccessListEntry) (fromAddr : String)
    (toAddr : Option String) : List AccessListEntry :=
  let l1 := accessList ++ [⟨fromAddr, []⟩]
  match toAddr with
  | none => l1
  | some t =>
    if l1.any (fun a => a.address.toLower == t) then l1
    else l1 ++ [⟨t, []⟩]

/-! ## `verifyCodeHash` (provider lines 864-870) -/

/-- Method `VerifyingProvider.verifyCodeHash`: `keccak` stands for `Web3.utils.keccak256`
on the `0x`-prefixed code string. -/
def verifyCodeHash (keccak : String → String) (code : String) (codeHash : String) : Bool :=
  (code == "0x" && codeHash == KECCAK256_NULL_S) ||
  (code == "0x" && codeHash == ZERO_HASH) ||
  (keccak code == codeHash)

/-! ## `estimateGas` transaction normalization (provider lines 453-502) -/

/-- The fields of `RPCTx` that `estimateGas` reads or assigns.  Values are kept as the
hex strings the JSON-RPC layer carries; `none` models an undefined field.  The falsy
string `""` cannot occur (fields are validated hex strings), so JS truthiness on these
fields coincides with definedness. -/
structure RPCTx where
  gas : Option String
  gasPrice : Option String
  maxFeePerGas : Option String
  maxPriorityFeePerGas : Option String
  accessList : Option (List AccessListEntry)
deriving DecidableEq, Repr

/-- The value of a hex digit. -/
def hexDigitVal (c : Char) : Nat :=
  if '0' ≤ c ∧ c ≤ '9' then c.toNat - '0'.toNat
  else if 'a' ≤ c ∧ c ≤ 'f' then c.toNat - 'a'.toNat + 10
  else if 'A' ≤ c ∧ c ≤ 'F' then c.toNat - 'A'.toNat + 10
  else 0

/-- Parsing `BigInt(s)` on a well-formed `0x`-prefixed hex string. -/
def hexToNat (s : String) : Nat :=
  (s.drop 2).foldl (fun acc c => acc * 16 + hexDigitVal c) 0

/-- The in-place mutation of the caller's transaction object performed by
`VerifyingProvider.estimateGas` before building `txData` (provider lines 464-486),
as a state-passing function returning the mutated object:
* `transaction.gas` defaults to `bigIntToHex(header.gasLimit)` when undefined;
* the type is inferred as 2 when `maxFeePerGas` or `maxPriorityFeePerGas` is present,
  1 when `accessList` is present, else 0;
* for type 2, `transaction.maxFeePerGas = maxFeePerGas || bigIntToHex(baseFeePerGas)`;
* otherwise `transaction.gasPrice` is set to `bigIntToHex(baseFeePerGas)` when it is
  undefined or parses to zero. -/
def estimateGasNormalize (tx : RPCTx) (headerGasLimit : Nat) (headerBaseFeePerGas : Nat) :
    RPCTx :=
  let tx1 := if tx.gas = none then { tx with gas := some (bigIntToHex headerGasLimit) } else tx
  let txType : Nat :=
    if tx1.maxFeePerGas ≠ none ∨ tx1.maxPriorityFeePerGas ≠ none then 2
    else if tx1.accessList ≠ none then 1
    else 0
  if txType = 2 then
    { tx1 with maxFeePerGas := some ((tx1.maxFeePerGas).getD (bigIntToHex headerBaseFeePerGas)) }
  else if tx1.gasPrice = none ∨ hexToNat ((tx1.gasPrice).getD "") = 0 then
    { tx1 with gasPrice := some (bigIntToHex headerBaseFeePerGas) }
  else tx1

/-! ## `verifyProof` (provider lines 872-921) -/

/-- One entry of `proof.storageProof` as returned by `eth_getProof`. -/
structure StorageProofEntry where
  key : String
  value : String
  proof : List String
deriving DecidableEq, Repr

/-- The `eth_getProof` result fields read by `verifyProof`; `nonce` and `balance` carry
the values of `BigInt(proof.nonce)` and `BigInt(proof.balance)`. -/
structure GetProof where
  accountProof : List String
  nonce : Nat
  balance : Nat
  storageHash : String
  codeHash : String
  storageProof : List StorageProofEntry
deriving DecidableEq, Repr

/-- The external library primitives used by `verifyProof`, as an abstract oracle:
* `keccakHex` — `Web3.utils.keccak256` on a hex string, returning a hex string;
* `trieVerifyProof root key nodes` — `Trie.verifyProof`; `none` models the `null`
  result (key absent); proofs on which the library throws are outside this model;
* `serializeAccount nonce balance storageRootHex codeHashHex` —
  `Account.fromAccountData({...}).serialize()`, the RLP of the account;
* `rlpEncodeString` — `rlp.encode` applied to a hex-string value;
* `hexToBytesF` / `bytesToHexF` — `hexToBytes` / `bytesToHex` from `@ethereumjs/util`;
* `setLengthLeft32` — `setLengthLeft(·, 32)`. -/
structure CryptoOracle where
  keccakHex : String → String
  trieVerifyProof : Bytes → Bytes → List Bytes → Option Bytes
  serializeAccount : Nat → Nat → String → String → Bytes
  rlpEncodeString : String → Bytes
  hexToBytesF : String → Bytes
  bytesToHexF : Bytes → String
  setLengthLeft32 : Bytes → Bytes

/-- Expression `new Account().serialize()` (provider line 61, `emptyAccountRLP`): the default
account has nonce 0, balance 0, the empty-trie storage root and the empty-code hash. -/
def emptyAccountRLP (O : CryptoOracle) : Bytes :=
  O.serializeAccount 0 0 KECCAK256_RLP_S KECCAK256_NULL_S

/-- The account-proof walk of `verifyProof` (provider lines 879-884):
`trie.verifyProof(stateRoot, hexToBytes(keccak(address)), accountProof.map(hexToBytes))`. -/
def accountTrieResult (O : CryptoOracle) (address : String) (stateRoot : Bytes)
    (proof : GetProof) : Option Bytes :=
  O.trieVerifyProof stateRoot (O.hexToBytesF (O.keccakHex address))
    (proof.accountProof.map O.hexToBytesF)

/-- The account constructed by `verifyProof` (provider lines 885-894): the proof's
nonce and balance with the `KECCAK256_RLP` / `KECCAK256_NULL` sentinels substituted for
a zero `storageHash` / `codeHash`, serialized to RLP. -/
def accountSerialized (O : CryptoOracle) (proof : GetProof) : Bytes :=
  O.serializeAccount proof.nonce proof.balance
    (if proof.storageHash == ZERO_HASH then KECCAK256_RLP_S else proof.storageHash)
    (if proof.codeHash == ZERO_HASH then KECCAK256_NULL_S else proof.codeHash)

/-- The storage-proof walk for one requested key (provider lines 904-911):
`trie.verifyProof(hexToBytes(storageHash), hexToBytes(keccak(pad32(key))), sp.proof)`. -/
def storageTrieResult (O : CryptoOracle) (proof : GetProof) (k : String)
    (sp : StorageProofEntry) : Option Bytes :=
  O.trieVerifyProof (O.hexToBytesF proof.storageHash)
    (O.hexToBytesF (O.keccakHex (O.bytesToHexF (O.setLengthLeft32 (O.hexToBytesF k)))))
    (sp.proof.map O.hexToBytesF)

/-- Check `isStorageValid` for one slot (provider lines 912-915): the proof resolves to null
and the claimed value is `'0x0'`, or it resolves to a value equal to `rlp(value)`. -/
def storageSlotValid (O : CryptoOracle) (proof : GetProof) (k : String)
    (sp : StorageProofEntry) : Bool :=
  match storageTrieResult O proof k sp with
  | none => sp.value == "0x0"
  | some v => v == O.rlpEncodeString sp.value

/-- The storage-slot loop of `verifyProof` (provider lines 902-917), iterating `i` over
the indices of `storageKeys`.  Indexing `proof.storageProof[i]` out of range is a JS
`TypeError`, modelled as `none`; `some false` / `some true` are the early `return false`
and the final `return true`. -/
def verifyStorageLoop (O : CryptoOracle) (storageKeys : List String) (proof : GetProof)
    (i : Nat) : Option Bool :=
  if hlt : i < storageKeys.length then
    match proof.storageProof[i]? with
    | none => none
    | some sp =>
      if storageSlotValid O proof storageKeys[i] sp then
        verifyStorageLoop O storageKeys proof (i + 1)
      else some false
  else some true
termination_by storageKeys.length - i

/-- Method `VerifyingProvider.verifyProof` (provider lines 872-921): verify the account record
against the state root at key `keccak(address)` (comparing with the canonical empty
account when the proof resolves to `null`, and substituting the `KECCAK256_RLP` /
`KECCAK256_NULL` sentinels for a zero `storageHash` / `codeHash`), then check every
requested storage key.  `address` carries `address.toString()`. -/
def verifyProof (O : CryptoOracle) (address : String) (storageKeys : List String)
    (stateRoot : Bytes) (proof : GetProof) : Option Bool :=
  let expectedAccountRLP := accountTrieResult O address stateRoot proof
  let isAccountValid :=
    accountSerialized O proof == expectedAccountRLP.getD (emptyAccountRLP O)
  if isAccountValid then verifyStorageLoop O storageKeys proof 0
  else some false

/-! ## `getBlockHeaderByHash` (provider lines 841-862) -/

/-- The external pieces of `getBlockHeaderByHash`, abstract over the header and
upstream-response types:
* `headerHash h` — `bytesToHex(h.hash())`, i.e. `keccak(rlp(h))` as a hex string;
* `fetchBlockByHash hash` — the `eth_getBlockByHash(hash, true)` RPC round trip;
  `none` models `success == false`;
* `constructHeader info` — `new BlockHeader(headerDataFromWeb3Response(info), {common})`.
Hash strings are taken in the canonical lowercase form `bytesToHex` produces, so the
byte comparison `equalsBytes(header.hash(), hexToBytes(blockHash))` is string equality. -/
structure HeaderOracle (Header : Type) (Info : Type) where
  headerHash : Header → String
  fetchBlockByHash : String → Option Info
  constructHeader : Info → Header

/-- Method `VerifyingProvider.getBlockHeaderByHash` (provider lines 841-862) as a state-passing
function over the `blockHeaders` cache: on a cache miss, fetch the block, construct the
header, throw `InternalError` unless its hash equals the requested hash, and cache it
under `blockHash`.  Returns the header together with the new cache. -/
def getBlockHeaderByHash {Header Info : Type} (O : HeaderOracle Header Info)
    (cache : String → Option Header) (blockHash : String) :
    Except ProviderError (Header × (String → Option Header)) :=
  match cache blockHash with
  | some header => .ok (header, cache)
  | none =>
    match O.fetchBlockByHash blockHash with
    | none => .error .internal
    | some blockInfo =>
      let header := O.constructHeader blockInfo
      if O.headerHash header == blockHash then
        .ok (header, fun k => if k == blockHash then some header else cache k)
      else .error .internal

/-- The cache invariant of the claim: every cached header hashes to the key it is
stored under. -/
def CacheOK {Header : Type} (headerHash : Header → String) (cache : String → Option Header) :
    Prop :=
  ∀ k h, cache k = some h → headerHash h = k

/-! ## `getBlock` (provider lines 620-648) -/

/-- Constant `KECCAK256_RLP_ARRAY` from `@ethereumjs/util`: keccak of the RLP of the empty list,
the `sha3Uncles` value of every block without uncles. -/
def KECCAK256_RLP_ARRAY_S : String :=
  "0x1dcc4de8dec75d7aab85b567b6ccd41ad312451b948a7413f0a142fd40d49347"

/-- The `eth_getBlockByNumber` response as `getBlock` consumes it: the `sha3Uncles`
header field and the `uncles` hash array are explicit; every other header field and
the transaction list are carried opaquely in `body`. -/
structure BlockResponse where
  sha3Uncles : String
  uncles : List String
  body : String
deriving DecidableEq, Repr

/-- Modelled from the spec: `blockDataFromWeb3Response` (src/utils.ts is not under src/).
Per spec §4.3 the upstream JSON is decoded "into full block form"; the TODO in `getBlock`
(provider lines 629-630, "First fetch all the uncles add it to the blockData") records
that the uncles list is currently *not* added to the block data, so the decoded block
consists of the header fields (including `sha3Uncles`) and the transactions only. -/
structure DecodedBlock where
  sha3Uncles : String
  body : String
deriving DecidableEq, Repr

/-- The external pieces of `getBlock`:
* `fetchBlockByNumber n` — the `eth_getBlockByNumber(bigIntToHex(n), true)` round trip,
  `none` for `success == false`;
* `blockHash b` — `bytesToHex(block.header.hash())` of the reconstructed block;
* `txTrieOK b` — `block.transactionsTrieIsValid()`. -/
structure BlockOracle where
  fetchBlockByNumber : Nat → Option BlockResponse
  blockHash : DecodedBlock → String
  txTrieOK : DecodedBlock → Bool

/-- The verified header `getBlock` receives: its number and its hash
(`bytesToHex(header.hash())`). -/
structure VerifiedHeader where
  number : Nat
  hash : String
deriving DecidableEq, Repr

/-- Method `VerifyingProvider.getBlock` (provider lines 620-648): fetch the block by number,
decode it ([[DecodedBlock]]; the `uncles` array of the response is dropped), construct
it with `Block.fromBlockData` under the Cancun/mainnet common — whose proof-of-stake
header validation (the `@ethereumjs/block` library contract) throws when `sha3Uncles`
differs from the empty-list hash — then reject unless the reconstructed block's hash
equals the verified header's hash and the transactions trie is valid. -/
def getBlock (O : BlockOracle) (header : VerifiedHeader) :
    Except ProviderError DecodedBlock :=
  match O.fetchBlockByNumber header.number with
  | none => .error .internal
  | some blockInfo =>
    if blockInfo.sha3Uncles ≠ KECCAK256_RLP_ARRAY_S then .error .internal
    else
      let block : DecodedBlock := ⟨blockInfo.sha3Uncles, blockInfo.body⟩
      if O.blockHash block ≠ header.hash then .error .internal
      else if ¬ O.txTrieOK block then .error .internal
      else .ok block

/-! ## Theorems -/

/-- Auxiliary for C9: `_retryRequest`'s loop only ever returns a successful response. -/
theorem retryRequestGo_ok_success (attempt : Nat → RPCResponse) (r : RPCResponse) :
    ∀ t fuel, retryRequestGo attempt t fuel = .ok r → r.success = true := by
  intro t fuel
  induction fuel generalizing t with
  | zero => intro hcontra; simp [retryRequestGo] at hcontra
  | succ n ih =>
    intro hok
    unfold retryRequestGo at hok
    by_cases hs : (attempt t).success
    · simp [hs] at hok
      simpa [← hok] using hs
    · simp [hs] at hok
      exact ih (t + 1) hok

/-- C9: `RPC.request` never resolves with a response whose `success` flag is false:
whenever it returns a response (rather than throwing), that response has
`success == true`, so the provider's `if (!success) throw new InternalError` guards
after `rpc.request` calls can never fire. -/
theorem request_never_resolves_failure (unsupportedMethods : Option (List String))
    (attempt : Nat → RPCResponse) (method : String) (r : RPCResponse)
    (hok : request unsupportedMethods attempt method = .ok r) :
    r.success = true := by
  unfold request at hok
  cases unsupportedMethods with
  | none => exact retryRequestGo_ok_success attempt r 0 5 hok
  | some ms =>
    by_cases hm : method ∈ ms
    · simp [hm] at hok
    · simp [hm] at hok
      exact retryRequestGo_ok_success attempt r 0 5 hok

/-- Witness for C9 at a concrete input: an oracle that succeeds immediately. -/
theorem request_never_resolves_failure_witness :
    (RPCResponse.mk true "0x1").success = true :=
  request_never_resolves_failure none (fun _ => ⟨true, "0x1"⟩) "eth_chainId" ⟨true, "0x1"⟩ rfl

/-- C3: evaluation of `_retryBatch` (and `requestBatch` in its batch-supporting
configuration) at a failing input.  Every sub-request of the batch succeeds on the very
first attempt — the selective-retry loop records the success, so no request is left —
yet the operation throws `'RPC request failed'` instead of returning the responses:
`failedRequests` is built with `map`, so `failedRequests.length > 0` holds for every
non-empty batch regardless of success. -/
theorem retryBatch_fails_despite_success :
    retryBatchGo (fun _ _ => [⟨true, "0xda"⟩]) 0 [⟨"eth_getProof", "p0", 1⟩] [] 5 =
      [(1, ⟨true, "0xda"⟩)] ∧
    retryBatch (fun _ _ => [⟨true, "0xda"⟩]) [⟨"eth_getProof", "p0", 1⟩] 5 =
      .error .requestFailed ∧
    requestBatch none true none (fun _ _ => [⟨true, "0xda"⟩]) (fun _ _ => ⟨true, "0xda"⟩)
      [⟨"eth_getProof", "p0", 1⟩] = .error .requestFailed := by
  refine ⟨rfl, rfl, ?_⟩
  rfl

/-- C4, counterexample: the latest block number is *not* non-decreasing across
`update` calls.  From a state whose latest number is 5, `update(_, 3)` drops
`latestBlockNumber` to 3, strictly below its value before the call. -/
theorem update_decreases_latest_counterexample :
    (update ⟨5, [(5, "0xaa")], []⟩ "0xbb" 3).latestBlockNumber = 3 ∧
    ¬ (ProviderState.mk 5 [(5, "0xaa")] []).latestBlockNumber ≤
        (update ⟨5, [(5, "0xaa")], []⟩ "0xbb" 3).latestBlockNumber := by
  refine ⟨rfl, ?_⟩
  decide

/-- C4, amended: `update(_, n)` sets the latest block number to exactly `n`
(so `blockNumber()` ≥ n holds after the call), but the latest number is
non-decreasing only when the update's number is not below the current latest. -/
theorem update_sets_latest (s : ProviderState) (hsh : String) (n : Nat) :
    (update s hsh n).latestBlockNumber = n ∧
    n ≤ (update s hsh n).latestBlockNumber ∧
    (s.latestBlockNumber ≤ n →
      s.latestBlockNumber ≤ (update s hsh n).latestBlockNumber) ∧
    blockNumber (update s hsh n) = bigIntToHex n := by
  refine ⟨rfl, Nat.le_refl n, fun hle => hle, rfl⟩

/-- Witness for C4's amended theorem at a concrete input. -/
theorem update_sets_latest_witness :
    (update ⟨0, [], []⟩ "0xcc" 2).latestBlockNumber = 2 ∧
    2 ≤ (update ⟨0, [], []⟩ "0xcc" 2).latestBlockNumber ∧
    ((ProviderState.mk 0 [] []).latestBlockNumber ≤ 2 →
      (ProviderState.mk 0 [] []).latestBlockNumber ≤
        (update ⟨0, [], []⟩ "0xcc" 2).latestBlockNumber) ∧
    blockNumber (update ⟨0, [], []⟩ "0xcc" 2) = bigIntToHex 2 :=
  update_sets_latest ⟨0, [], []⟩ "0xcc" 2

/-- C8: `verifyCodeHash(code, codeHash)` returns true iff the code is the empty
string `"0x"` and the code hash is `KECCAK256_NULL` or the all-zero hash, or the
keccak of the code equals the code hash. -/
theorem verifyCodeHash_spec (keccak : String → String) (code codeHash : String) :
    verifyCodeHash keccak code codeHash = true ↔
      (code = "0x" ∧ (codeHash = KECCAK256_NULL_S ∨ codeHash = ZERO_HASH)) ∨
      keccak code = codeHash := by
  simp [verifyCodeHash, Bool.or_eq_true, Bool.and_eq_true, beq_iff_eq]
  tauto

/-- Witness for C8 at a concrete input: empty code against the empty-code hash. -/
theorem verifyCodeHash_spec_witness :
    verifyCodeHash (fun _ => "0xff") "0x" KECCAK256_NULL_S = true :=
  (verifyCodeHash_spec (fun _ => "0xff") "0x" KECCAK256_NULL_S).mpr
    (Or.inl ⟨rfl, Or.inl rfl⟩)

/-- C6, counterexample: the `{from, []}` entry is pushed even when an entry for the
sender address is already present, duplicating it — with an upstream access list
already containing `0xaa` and sender `0xaa`, the augmented list holds the entry twice. -/
theorem augmentAccessList_duplicates_from :
    (⟨"0xaa", []⟩ : AccessListEntry) ∈ ([⟨"0xaa", []⟩] : List AccessListEntry) ∧
    augmentAccessList [⟨"0xaa", []⟩] "0xaa" none = [⟨"0xaa", []⟩, ⟨"0xaa", []⟩] :=
  ⟨List.mem_singleton.mpr rfl, rfl⟩

/-- C6, amended: `{from, []}` is always appended to the upstream access list,
regardless of whether an entry for the sender is already present; `{to, []}` is
appended only when the target is set and no entry of the from-extended list has
lowercased address equal to the target. -/
theorem augmentAccessList_spec (l : List AccessListEntry) (f : String) (t? : Option String) :
    (t? = none → augmentAccessList l f t? = l ++ [⟨f, []⟩]) ∧
    (∀ a, t? = some a →
      ((∃ e ∈ l ++ [⟨f, []⟩], e.address.toLower = a) →
        augmentAccessList l f t? = l ++ [⟨f, []⟩]) ∧
      ((¬ ∃ e ∈ l ++ [⟨f, []⟩], e.address.toLower = a) →
        augmentAccessList l f t? = (l ++ [⟨f, []⟩]) ++ [⟨a, []⟩])) := by
  constructor
  · rintro rfl
    rfl
  · rintro a rfl
    constructor
    · intro hex
      have hany : (l ++ [({ address := f, storageKeys := [] } : AccessListEntry)]).any
          (fun e => e.address.toLower == a) = true := by
        rcases hex with ⟨e, hmem, heq⟩
        exact List.any_eq_true.mpr ⟨e, hmem, by simpa using heq⟩
      simp [augmentAccessList, hany]
    · intro hnex
      have hany : (l ++ [({ address := f, storageKeys := [] } : AccessListEntry)]).any
          (fun e => e.address.toLower == a) = false := by
        by_contra hcon
        rw [Bool.not_eq_false, List.any_eq_true] at hcon
        rcases hcon with ⟨e, hmem, heq⟩
        exact hnex ⟨e, hmem, by simpa using heq⟩
      simp [augmentAccessList, hany]

/-- Witness for C6's amended theorem at a concrete input: the target address is already
covered by the just-pushed sender entry, so no target entry is appended. -/
theorem augmentAccessList_spec_witness :
    augmentAccessList [] "0xBB" (some ("0xBB".toLower)) =
      [⟨"0xBB", []⟩] := by
  have h := (augmentAccessList_spec [] "0xBB" (some ("0xBB".toLower))).2 ("0xBB".toLower) rfl
  simpa using h.1 ⟨⟨"0xBB", []⟩, by simp, rfl⟩

/-- C7: block-tag resolution and the future-block wait.  The four unsupported tags
raise `InvalidParams`; `latest` resolves to the current latest number; a hex integer
`n` resolves to `n` exactly when `latest − MAX_BLOCK_HISTORY ≤ n ≤ latest +
MAX_BLOCK_FUTURE` and raises `InvalidParams` otherwise; the caller suspends exactly
when `n` is in the future (a wait slot for `n` is present afterwards), and a pending
slot for `n` is resolved by `update(_, m)` exactly when the update advances the latest
number from below `n` to at least `n`. -/
theorem blockTagPolicy_spec (s : ProviderState) (n m : Nat) (hsh : String)
    (hp : (n, false) ∈ s.blockPromises) (hnp : (n, true) ∉ s.blockPromises) :
    getBlockNumberByBlockOpt s .pending = .error .invalidParams ∧
    getBlockNumberByBlockOpt s .earliest = .error .invalidParams ∧
    getBlockNumberByBlockOpt s .finalized = .error .invalidParams ∧
    getBlockNumberByBlockOpt s .safe = .error .invalidParams ∧
    getBlockNumberByBlockOpt s .latest = .ok s.latestBlockNumber ∧
    (getBlockNumberByBlockOpt s (.num n) = .ok n ↔
      s.latestBlockNumber ≤ n + MAX_BLOCK_HISTORY ∧
        n ≤ s.latestBlockNumber + MAX_BLOCK_FUTURE) ∧
    (getBlockNumberByBlockOpt s (.num n) = .error .invalidParams ↔
      ¬ (s.latestBlockNumber ≤ n + MAX_BLOCK_HISTORY ∧
          n ≤ s.latestBlockNumber + MAX_BLOCK_FUTURE)) ∧
    ((waitForBlockNumber s n).1 = .immediate ↔ n ≤ s.latestBlockNumber) ∧
    (s.latestBlockNumber < n →
      (waitForBlockNumber s n).2.blockPromises.any (fun p => p.1 == n) = true) ∧
    ((n, true) ∈ (update s hsh m).blockPromises ↔ s.latestBlockNumber < n ∧ n ≤ m) := by
  refine ⟨rfl, rfl, rfl, rfl, rfl, ?_, ?_, ?_, ?_, ?_⟩
  · simp only [getBlockNumberByBlockOpt, MAX_BLOCK_FUTURE, MAX_BLOCK_HISTORY]
    split_ifs with h1 h2 <;> simp <;> omega
  · simp only [getBlockNumberByBlockOpt, MAX_BLOCK_FUTURE, MAX_BLOCK_HISTORY]
    split_ifs with h1 h2 <;> simp <;> omega
  · unfold waitForBlockNumber
    by_cases hle : n ≤ s.latestBlockNumber
    · simp [hle]
    · by_cases hin : s.blockPromises.any (fun p => p.1 == n)
      · simp [hle, hin]
      · simp [hle, hin]
  · intro hlt
    have hle : ¬ n ≤ s.latestBlockNumber := by omega
    unfold waitForBlockNumber
    by_cases hin : s.blockPromises.any (fun p => p.1 == n)
    · simp [hle, hin]
    · simp [hle, hin]
  · unfold update
    constructor
    · intro hmem
      by_cases hlt : s.latestBlockNumber < m
      · simp only [hlt, if_pos] at hmem
        rcases List.mem_map.mp hmem with ⟨p, hpmem, hpeq⟩
        by_cases hcond : s.latestBlockNumber + 1 ≤ p.1 ∧ p.1 ≤ m
        · rw [if_pos hcond] at hpeq
          have hp1 : p.1 = n := congrArg Prod.fst hpeq
          omega
        · rw [if_neg hcond] at hpeq
          exact absurd (hpeq ▸ hpmem) hnp
      · simp only [hlt, if_neg, ite_false] at hmem
        exact absurd hmem hnp
    · rintro ⟨h1, h2⟩
      have hlt : s.latestBlockNumber < m := lt_of_lt_of_le h1 h2
      simp only [hlt, if_pos]
      refine List.mem_map.mpr ⟨(n, false), hp, ?_⟩
      rw [if_pos ⟨by omega, h2⟩]

/-- Witness for C7 at a concrete input: latest number 5, a pending slot for 7,
an update to 8. -/
theorem blockTagPolicy_spec_witness :
    (7, true) ∈ (update ⟨5, [], [(7, false)]⟩ "0xdd" 8).blockPromises ∧
    getBlockNumberByBlockOpt ⟨5, [], [(7, false)]⟩ (.num 7) = .ok 7 ∧
    (waitForBlockNumber ⟨5, [], [(7, false)]⟩ 7).1 = .awaiting := by
  have h := blockTagPolicy_spec ⟨5, [], [(7, false)]⟩ 7 8 "0xdd"
    (List.mem_singleton.mpr rfl) (by decide)
  refine ⟨h.2.2.2.2.2.2.2.2.2.mpr (by decide), h.2.2.2.2.2.1.mpr (by decide), ?_⟩
  have himm := h.2.2.2.2.2.2.2.1
  cases hw : (waitForBlockNumber ⟨5, [], [(7, false)]⟩ 7).1 with
  | immediate => exact absurd (himm.mp hw) (by decide)
  | awaiting => rfl

/-- C10: `estimateGas` mutates the caller's transaction object before execution —
`gas` defaults to the header's gas limit when undefined; when a max-fee field makes
the transaction type 2, `maxFeePerGas` is (re)assigned with the base fee as default
and `gasPrice` is untouched; otherwise `gasPrice` is set to the base fee when it is
undefined or zero — so the object after the call can differ from the one passed in. -/
theorem estimateGasNormalize_spec (tx : RPCTx) (gl bf : Nat) :
    (tx.gas = none → (estimateGasNormalize tx gl bf).gas = some (bigIntToHex gl)) ∧
    (tx.gas ≠ none → (estimateGasNormalize tx gl bf).gas = tx.gas) ∧
    ((tx.maxFeePerGas ≠ none ∨ tx.maxPriorityFeePerGas ≠ none) →
      (estimateGasNormalize tx gl bf).maxFeePerGas =
        some (tx.maxFeePerGas.getD (bigIntToHex bf)) ∧
      (estimateGasNormalize tx gl bf).gasPrice = tx.gasPrice) ∧
    (tx.maxFeePerGas = none → tx.maxPriorityFeePerGas = none →
      (estimateGasNormalize tx gl bf).maxFeePerGas = none ∧
      ((tx.gasPrice = none ∨ hexToNat (tx.gasPrice.getD "") = 0) →
        (estimateGasNormalize tx gl bf).gasPrice = some (bigIntToHex bf)) ∧
      (tx.gasPrice ≠ none → hexToNat (tx.gasPrice.getD "") ≠ 0 →
        (estimateGasNormalize tx gl bf).gasPrice = tx.gasPrice)) ∧
    (∃ (tx0 : RPCTx) (gl0 bf0 : Nat), estimateGasNormalize tx0 gl0 bf0 ≠ tx0) := by
  obtain ⟨g, gp, mf, mpf, al⟩ := tx
  refine ⟨?_, ?_, ?_, ?_, ⟨⟨none, none, none, none, none⟩, 0, 0, by decide⟩⟩
  · rintro rfl
    cases mf <;> cases mpf <;> cases al <;>
      simp [estimateGasNormalize] <;>
      by_cases hz : gp = none ∨ hexToNat (gp.getD "") = 0 <;>
      simp [hz]
  · intro hg
    cases g with
    | none => exact absurd rfl hg
    | some gv =>
      cases mf <;> cases mpf <;> cases al <;>
        simp [estimateGasNormalize] <;>
        by_cases hz : gp = none ∨ hexToNat (gp.getD "") = 0 <;>
        simp [hz]
  · intro hmax
    cases g <;> cases mf <;> cases mpf <;> cases al <;>
      simp_all [estimateGasNormalize]
  · rintro rfl rfl
    refine ⟨?_, ?_, ?_⟩
    · cases g <;> cases al <;> simp [estimateGasNormalize] <;>
        by_cases hz : gp = none ∨ hexToNat (gp.getD "") = 0 <;> simp [hz]
    · intro hz
      cases g <;> cases al <;> simp [estimateGasNormalize, hz]
    · intro hgp hnz
      have hz : ¬ (gp = none ∨ hexToNat (gp.getD "") = 0) := by
        rintro (h | h)
        · exact hgp h
        · exact hnz h
      cases g <;> cases al <;> simp [estimateGasNormalize, hz]

/-- Witness for C10 at a concrete input: a transaction with no gas, no fee fields and
no access list picks up the header gas limit and base-fee gas price. -/
theorem estimateGasNormalize_spec_witness :
    (estimateGasNormalize ⟨none, none, none, none, none⟩ 7 9).gas =
      some (bigIntToHex 7) ∧
    (estimateGasNormalize ⟨none, none, none, none, none⟩ 7 9).gasPrice =
      some (bigIntToHex 9) := by
  have h := estimateGasNormalize_spec ⟨none, none, none, none, none⟩ 7 9
  exact ⟨h.1 rfl, (h.2.2.2.1 rfl rfl).2.1 (Or.inl rfl)⟩

/-- C2: `getBlockHeaderByHash` returns the cached header when one exists; otherwise it
constructs a header from the `eth_getBlockByHash` response and throws `InternalError`
unless `keccak(rlp(header))` equals the requested hash; consequently every header it
emits hashes to the requested hash, every header it caches hashes to the key it is
stored under, and the cache invariant is preserved. -/
theorem getBlockHeaderByHash_spec {Header Info : Type} (O : HeaderOracle Header Info)
    (cache : String → Option Header) (blockHash : String)
    (hcache : CacheOK O.headerHash cache) :
    (∀ h0, cache blockHash = some h0 →
      getBlockHeaderByHash O cache blockHash = .ok (h0, cache)) ∧
    (∀ h0 c, getBlockHeaderByHash O cache blockHash = .ok (h0, c) →
      O.headerHash h0 = blockHash ∧ c blockHash = some h0 ∧ CacheOK O.headerHash c) ∧
    (∀ info, cache blockHash = none → O.fetchBlockByHash blockHash = some info →
      O.headerHash (O.constructHeader info) ≠ blockHash →
      getBlockHeaderByHash O cache blockHash = .error .internal) := by
  refine ⟨?_, ?_, ?_⟩
  · intro h0 hhit
    unfold getBlockHeaderByHash
    rw [hhit]
  · intro h0 c hok
    unfold getBlockHeaderByHash at hok
    split at hok
    · rename_i hdr hhit
      injection hok with hok
      have h1 : h0 = hdr := (congrArg Prod.fst hok).symm
      have h2 : c = cache := (congrArg Prod.snd hok).symm
      rw [h1, h2]
      exact ⟨hcache blockHash hdr hhit, hhit, hcache⟩
    · rename_i hhit
      split at hok
      · exact absurd hok (by simp)
      · rename_i info hfetch
        simp only at hok
        split at hok
        · rename_i hhash
          injection hok with hok
          have h1 : h0 = O.constructHeader info := (congrArg Prod.fst hok).symm
          have h2 : c = fun k =>
              if k == blockHash then some (O.constructHeader info) else cache k :=
            (congrArg Prod.snd hok).symm
          subst h1
          have hhash' : O.headerHash (O.constructHeader info) = blockHash := by
            simpa using hhash
          refine ⟨hhash', ?_, ?_⟩
          · rw [h2]
            simp
          · intro k hk hck
            rw [h2] at hck
            by_cases hkb : k = blockHash
            · subst hkb
              simp at hck
              rw [← hck]
              exact hhash'
            · simp [hkb] at hck
              exact hcache k hk hck
        · exact absurd hok (by simp)
  · intro info hmiss hfetch hne
    unfold getBlockHeaderByHash
    simp [hmiss, hfetch, hne]

/-- Witness for C2 at a concrete input: an empty cache, an upstream that answers, and a
constructed header whose hash matches the requested hash. -/
theorem getBlockHeaderByHash_spec_witness :
    (HeaderOracle.mk (fun (_ : Nat) => "0xaa") (fun _ => some ())
        (fun (_ : Unit) => (0 : Nat))).headerHash 0 = "0xaa" := by
  have h := @getBlockHeaderByHash_spec Nat Unit
    ⟨fun _ => "0xaa", fun _ => some (), fun _ => 0⟩ (fun _ => none) "0xaa"
    (fun k h0 hk => absurd hk (by simp))
  exact (h.2.1 0 _ rfl).1

/-- C5, counterexample: a response whose `uncles` array is non-empty but whose
`sha3Uncles` equals the empty-list hash is *returned*, not rejected — the decode drops
the uncles array, the reconstructed block's hash matches the verified header and the
transaction trie validates, so `getBlock` succeeds. -/
theorem getBlock_nonempty_uncles_returned :
    (BlockResponse.mk KECCAK256_RLP_ARRAY_S ["0xdeadbeef"] "txs").uncles ≠ [] ∧
    getBlock
      ⟨fun _ => some ⟨KECCAK256_RLP_ARRAY_S, ["0xdeadbeef"], "txs"⟩,
        fun _ => "0xabc", fun _ => true⟩
      ⟨1, "0xabc"⟩ = .ok ⟨KECCAK256_RLP_ARRAY_S, "txs"⟩ := by
  refine ⟨by simp, ?_⟩
  rfl

/-- C5, amended: `getBlock` never inspects the `uncles` array of the upstream response
(its value cannot change the outcome), so a non-empty uncles array is silently dropped
rather than rejected; what is rejected is every response whose `sha3Uncles` field
differs from the empty-uncle-list hash — which covers every block genuinely carrying
uncles — and any block that is returned carries the empty-uncles `sha3Uncles` and no
uncle data. -/
theorem getBlock_spec (O O' : BlockOracle) (header : VerifiedHeader)
    (info : BlockResponse) (u : List String)
    (hfetch : O.fetchBlockByNumber header.number = some info)
    (hbh : O'.blockHash = O.blockHash) (htt : O'.txTrieOK = O.txTrieOK)
    (hfetch' : O'.fetchBlockByNumber header.number = some { info with uncles := u }) :
    (info.sha3Uncles ≠ KECCAK256_RLP_ARRAY_S → getBlock O header = .error .internal) ∧
    getBlock O' header = getBlock O header ∧
    (∀ b, getBlock O header = .ok b →
      b = ⟨info.sha3Uncles, info.body⟩ ∧ info.sha3Uncles = KECCAK256_RLP_ARRAY_S) := by
  refine ⟨?_, ?_, ?_⟩
  · intro hne
    unfold getBlock
    rw [hfetch]
    simp only [if_pos hne]
  · unfold getBlock
    rw [hfetch, hfetch', hbh, htt]
  · intro b hok
    unfold getBlock at hok
    rw [hfetch] at hok
    simp only at hok
    split at hok
    · exact absurd hok (by simp)
    · rename_i hsha
      push_neg at hsha
      split at hok
      · exact absurd hok (by simp)
      · split at hok
        · exact absurd hok (by simp)
        · injection hok with hok
          exact ⟨hok.symm, hsha⟩

/-- Witness for C5's amended theorem at a concrete input: two oracles whose fetched
responses differ only in the uncles array produce the same result, and the returned
block carries the empty-uncles `sha3Uncles`. -/
theorem getBlock_spec_witness :
    getBlock
        ⟨fun _ => some ⟨KECCAK256_RLP_ARRAY_S, ["0xaa"], "txs"⟩,
          fun _ => "0xabc", fun _ => true⟩ ⟨1, "0xabc"⟩ =
      getBlock
        ⟨fun _ => some ⟨KECCAK256_RLP_ARRAY_S, [], "txs"⟩,
          fun _ => "0xabc", fun _ => true⟩ ⟨1, "0xabc"⟩ ∧
    (BlockResponse.mk KECCAK256_RLP_ARRAY_S [] "txs").sha3Uncles =
      KECCAK256_RLP_ARRAY_S := by
  have h := getBlock_spec
    ⟨fun _ => some ⟨KECCAK256_RLP_ARRAY_S, [], "txs"⟩, fun _ => "0xabc", fun _ => true⟩
    ⟨fun _ => some ⟨KECCAK256_RLP_ARRAY_S, ["0xaa"], "txs"⟩, fun _ => "0xabc", fun _ => true⟩
    ⟨1, "0xabc"⟩ ⟨KECCAK256_RLP_ARRAY_S, [], "txs"⟩ ["0xaa"] rfl rfl rfl rfl
  exact ⟨h.2.1, (h.2.2 ⟨KECCAK256_RLP_ARRAY_S, "txs"⟩ rfl).2⟩

/-- Auxiliary for C1: the boolean slot check agrees with the claim's disjunction. -/
theorem storageSlotValid_iff (O : CryptoOracle) (proof : GetProof) (k : String)
    (sp : StorageProofEntry) :
    storageSlotValid O proof k sp = true ↔
      (storageTrieResult O proof k sp = none ∧ sp.value = "0x0") ∨
      (∃ v, storageTrieResult O proof k sp = some v ∧ v = O.rlpEncodeString sp.value) := by
  unfold storageSlotValid
  cases h : storageTrieResult O proof k sp <;> simp [h]

/-- Auxiliary for C1: the storage loop from index `i` succeeds iff every slot from `i`
on exists and validates. -/
theorem verifyStorageLoop_eq_true_iff (O : CryptoOracle) (storageKeys : List String)
    (proof : GetProof) :
    ∀ i, (verifyStorageLoop O storageKeys proof i = some true ↔
      ∀ j, i ≤ j → ∀ hj : j < storageKeys.length,
        ∃ sp, proof.storageProof[j]? = some sp ∧
          storageSlotValid O proof storageKeys[j] sp = true) := by
  have key : ∀ fuel i, storageKeys.length - i = fuel →
      (verifyStorageLoop O storageKeys proof i = some true ↔
        ∀ j, i ≤ j → ∀ hj : j < storageKeys.length,
          ∃ sp, proof.storageProof[j]? = some sp ∧
            storageSlotValid O proof storageKeys[j] sp = true) := by
    intro fuel
    induction fuel with
    | zero =>
      intro i hfi
      have hge : ¬ i < storageKeys.length := by omega
      unfold verifyStorageLoop
      rw [dif_neg hge]
      constructor
      · intro _ j hij hj
        omega
      · intro _
        rfl
    | succ fuel ih =>
      intro i hfi
      have hlt : i < storageKeys.length := by omega
      unfold verifyStorageLoop
      rw [dif_pos hlt]
      cases hsp : proof.storageProof[i]? with
      | none =>
        simp only
        constructor
        · intro hcontra
          exact absurd hcontra (by simp)
        · intro hall
          obtain ⟨sp, hspe, _⟩ := hall i le_rfl hlt
          rw [hsp] at hspe
          exact absurd hspe (by simp)
      | some sp =>
        simp only
        by_cases hv : storageSlotValid O proof storageKeys[i] sp = true
        · rw [if_pos hv, ih (i + 1) (by omega)]
          constructor
          · intro hall j hij hj
            rcases Nat.eq_or_lt_of_le hij with heq | hlt2
            · subst heq
              exact ⟨sp, hsp, hv⟩
            · exact hall j hlt2 hj
          · intro hall j hij hj
            exact hall j (by omega) hj
        · rw [if_neg hv]
          constructor
          · intro hcontra
            exact absurd hcontra (by simp)
          · intro hall
            obtain ⟨sp2, hspe, hvalid⟩ := hall i le_rfl hlt
            rw [hsp] at hspe
            injection hspe with hspe
            subst hspe
            exact absurd hvalid hv
  intro i
  exact key (storageKeys.length - i) i rfl

/-- C1: `verifyProof(address, storageKeys, stateRoot, proof)` returns true iff (1) the
account proof walked from the state root at key `keccak(address)` yields an RLP value
equal to the serialization of the account built from the proof's fields with the
zero-hash sentinels substituted — a null proof result having to match the canonical
empty account — and (2) for every requested storage key, the storage proof at key
`keccak(left-pad-32(key))` against `storageHash` either resolves to null with claimed
value `'0x0'`, or resolves to a value equal to `rlp(value)`; there is no partial
success. -/
theorem verifyProof_spec (O : CryptoOracle) (address : String)
    (storageKeys : List String) (stateRoot : Bytes) (proof : GetProof) :
    verifyProof O address storageKeys stateRoot proof = some true ↔
      (match accountTrieResult O address stateRoot proof with
       | some v => accountSerialized O proof = v
       | none => accountSerialized O proof = emptyAccountRLP O) ∧
      (∀ j, ∀ hj : j < storageKeys.length,
        ∃ sp, proof.storageProof[j]? = some sp ∧
          ((storageTrieResult O proof storageKeys[j] sp = none ∧ sp.value = "0x0") ∨
           (∃ v, storageTrieResult O proof storageKeys[j] sp = some v ∧
              v = O.rlpEncodeString sp.value))) := by
  unfold verifyProof
  simp only
  by_cases hacc : (accountSerialized O proof ==
      (accountTrieResult O address stateRoot proof).getD (emptyAccountRLP O)) = true
  · rw [if_pos hacc]
    rw [verifyStorageLoop_eq_true_iff O storageKeys proof 0]
    have haccP : (match accountTrieResult O address stateRoot proof with
        | some v => accountSerialized O proof = v
        | none => accountSerialized O proof = emptyAccountRLP O) := by
      have heq : accountSerialized O proof =
          (accountTrieResult O address stateRoot proof).getD (emptyAccountRLP O) :=
        by simpa using hacc
      cases hexp : accountTrieResult O address stateRoot proof with
      | some v => rw [hexp] at heq; simpa using heq
      | none => rw [hexp] at heq; simpa using heq
    constructor
    · intro hall
      refine ⟨haccP, ?_⟩
      intro j hj
      obtain ⟨sp, hsp, hv⟩ := hall j (Nat.zero_le j) hj
      exact ⟨sp, hsp, (storageSlotValid_iff O proof storageKeys[j] sp).mp hv⟩
    · rintro ⟨-, hall⟩ j hij hj
      obtain ⟨sp, hsp, hv⟩ := hall j hj
      exact ⟨sp, hsp, (storageSlotValid_iff O proof storageKeys[j] sp).mpr hv⟩
  · rw [if_neg hacc]
    constructor
    · intro hcontra
      exact absurd hcontra (by simp)
    · rintro ⟨haccP, -⟩
      refine absurd ?_ hacc
      cases hexp : accountTrieResult O address stateRoot proof with
      | some v =>
        rw [hexp] at haccP
        simp only at haccP
        simp [hexp, haccP]
      | none =>
        rw [hexp] at haccP
        simp only at haccP
        simp [hexp, haccP]

/-- A trivial concrete instantiation of the crypto oracle, for evaluating the claims'
theorems at concrete inputs. -/
def trivialOracle : CryptoOracle :=
  ⟨fun s => s, fun _ _ _ => none, fun _ _ _ _ => [], fun _ => [],
    fun _ => [], fun _ => "0x", fun b => b⟩

/-- Witness for C1 at a concrete input: no storage keys, an account proof resolving to
null, and an account that serializes to the canonical empty account. -/
theorem verifyProof_spec_witness :
    verifyProof trivialOracle "0xad" [] [] ⟨[], 0, 0, "0xs", "0xc", []⟩ = some true := by
  refine (verifyProof_spec trivialOracle "0xad" [] [] ⟨[], 0, 0, "0xs", "0xc", []⟩).mpr
    ⟨?_, ?_⟩
  · exact rfl
  · intro j hj
    exact absurd hj (by simp)

end Patronum
